import Mathlib

/- Shallow embedding of the KVMGT mediated pass-through code in
   drivers/gpu/drm/i915/gvt/kvmgt.c.  Kernel collaborators that live
   outside this file (vfio pin/unpin, dma_map_page, kvm memslot lookup,
   kvm page track install/remove, user copies, vgpu_save_restore) are
   modelled as explicit oracles, and every host side effect is recorded
   in an event log so that call counts can be stated and proved. -/

namespace Kvmgt

/-- Embedding of handle_valid: a handle is valid when some bit above bit 7
is set, i.e. handle AND NOT 0xff is nonzero.  On natural numbers this is
exactly handle >>> 8 being nonzero. -/
def handle_valid (handle : Nat) : Bool := handle >>> 8 != 0

/-- Embedding of struct gvt_dma: one translation entry owned by a vgpu,
kept in both the gfn index and the dma address index, with a kref. -/
structure GvtDma where
  gfn : Nat
  dma_addr : Nat
  ref : Nat
deriving DecidableEq, Repr

/-- State of the per-vgpu translation cache together with logs of the host
collaborator calls made on its behalf.  The two rb trees of the source hold
one node per entry each and are always mutated in lock step
(__gvt_cache_add inserts into both, __gvt_cache_remove_entry erases from
both), so they are embedded as a single entry list read through a gfn view
(findGfn) and a dma address view (findDma). -/
structure CacheState where
  entries : List GvtDma
  pinLog : List Nat
  unpinLog : List Nat
  hostMapLog : List Nat
  unmapLog : List Nat
deriving DecidableEq, Repr

/-- Oracle for the host memory collaborators used by gvt_dma_map_page:
vfio_pin_pages (none models a pin failure), pfn_valid, dma_map_page and
dma_mapping_error. -/
structure Host where
  pin : Nat → Option Nat
  pfn_valid : Nat → Bool
  dma_map : Nat → Nat
  dma_mapping_error : Nat → Bool

/-- Embedding of __gvt_cache_find_gfn: look the entry list up through the
gfn index. -/
def findGfn : List GvtDma → Nat → Option GvtDma
  | [], _ => none
  | e :: es, g => if e.gfn = g then some e else findGfn es g

/-- Embedding of __gvt_cache_find_dma_addr: look the entry list up through
the dma address index. -/
def findDma : List GvtDma → Nat → Option GvtDma
  | [], _ => none
  | e :: es, d => if e.dma_addr = d then some e else findDma es d

/-- Number of cache entries carrying a given gfn. -/
def countGfn : List GvtDma → Nat → Nat
  | [], _ => 0
  | e :: es, g => (if e.gfn = g then 1 else 0) + countGfn es g

/-- Number of cache entries carrying a given dma address. -/
def countDma : List GvtDma → Nat → Nat
  | [], _ => 0
  | e :: es, d => (if e.dma_addr = d then 1 else 0) + countDma es d

/-- Embedding of kref_get on the entry found by gfn: bump the reference
count of the first entry carrying the gfn. -/
def incRefGfn : List GvtDma → Nat → List GvtDma
  | [], _ => []
  | e :: es, g =>
    if e.gfn = g then { e with ref := e.ref + 1 } :: es
    else e :: incRefGfn es g

/-- Embedding of the kref_put decrement on the entry found by dma address
when the count stays positive. -/
def decRefDma : List GvtDma → Nat → List GvtDma
  | [], _ => []
  | e :: es, d =>
    if e.dma_addr = d then { e with ref := e.ref - 1 } :: es
    else e :: decRefDma es d

/-- Embedding of __gvt_cache_remove_entry for the entry found by dma
address: erase it from both index views. -/
def removeByDma : List GvtDma → Nat → List GvtDma
  | [], _ => []
  | e :: es, d => if e.dma_addr = d then es else e :: removeByDma es d

/-- Embedding of __gvt_cache_remove_entry for the entry found by gfn:
erase it from both index views. -/
def removeByGfn : List GvtDma → Nat → List GvtDma
  | [], _ => []
  | e :: es, g => if e.gfn = g then es else e :: removeByGfn es g

/-- Embedding of gvt_dma_map_page: pin the page (logged on success), check
pfn_valid, set up the dma mapping; on a failure after the pin the page is
unpinned (logged) before the error returns.  EINVAL is -22, ENOMEM is -12.
A fully successful pin plus map is recorded in hostMapLog. -/
def gvt_dma_map_page (h : Host) (gfn : Nat) (st : CacheState) :
    Except Int Nat × CacheState :=
  match h.pin gfn with
  | none => (Except.error (-22), st)
  | some pfn =>
    if h.pfn_valid pfn then
      if h.dma_mapping_error (h.dma_map pfn) then
        (Except.error (-12),
          { st with pinLog := st.pinLog ++ [gfn],
                    unpinLog := st.unpinLog ++ [gfn] })
      else
        (Except.ok (h.dma_map pfn),
          { st with pinLog := st.pinLog ++ [gfn],
                    hostMapLog := st.hostMapLog ++ [gfn] })
    else
      (Except.error (-22),
        { st with pinLog := st.pinLog ++ [gfn],
                  unpinLog := st.unpinLog ++ [gfn] })

/-- Embedding of gvt_dma_unmap_page: dma_unmap_page (recorded in unmapLog)
followed by vfio_unpin_pages (recorded in unpinLog). -/
def gvt_dma_unmap_page (gfn : Nat) (st : CacheState) : CacheState :=
  { st with unmapLog := st.unmapLog ++ [gfn],
            unpinLog := st.unpinLog ++ [gfn] }

/-- Embedding of kvmgt_dma_map_guest_page: reject an invalid handle with
EINVAL, otherwise look the gfn up; a hit takes a reference and returns the
cached address, a miss performs the host pin plus map and inserts a fresh
entry with reference count 1 into both index views. -/
def kvmgt_dma_map_guest_page (h : Host) (handle : Nat) (gfn : Nat)
    (st : CacheState) : Except Int Nat × CacheState :=
  if handle_valid handle then
    match findGfn st.entries gfn with
    | none =>
      match gvt_dma_map_page h gfn st with
      | (Except.error e, st1) => (Except.error e, st1)
      | (Except.ok d, st1) =>
        (Except.ok d, { st1 with entries := ⟨gfn, d, 1⟩ :: st1.entries })
    | some e =>
      (Except.ok e.dma_addr, { st with entries := incRefGfn st.entries gfn })
  else (Except.error (-22), st)

/-- Embedding of kvmgt_dma_unmap_guest_page together with
__gvt_dma_release: an invalid handle or an unknown dma address is a silent
no-op; otherwise the reference count drops, and on reaching zero the host
mapping is released and the entry leaves both index views. -/
def kvmgt_dma_unmap_guest_page (handle : Nat) (d : Nat) (st : CacheState) :
    CacheState :=
  if handle_valid handle then
    match findDma st.entries d with
    | none => st
    | some e =>
      if e.ref = 1 then
        { gvt_dma_unmap_page e.gfn st with
            entries := removeByDma st.entries d }
      else { st with entries := decRefDma st.entries d }
  else st

/-- Value of VFIO_IOMMU_NOTIFY_DMA_UNMAP, BIT 0 in the vfio header, which
is outside src; only the equality test against it matters here. -/
def VFIO_IOMMU_NOTIFY_DMA_UNMAP : Nat := 1

/-- Embedding of the per-pfn loop of intel_vgpu_iommu_notifier: walk the
unmapped range one frame at a time, and force-release any cache entry
found under that gfn, regardless of its reference count. -/
def iommu_unmap_loop : CacheState → Nat → Nat → CacheState
  | st, _, 0 => st
  | st, p, n + 1 =>
    match findGfn st.entries p with
    | none => iommu_unmap_loop st (p + 1) n
    | some e =>
      iommu_unmap_loop
        { gvt_dma_unmap_page e.gfn st with
            entries := removeByGfn st.entries p } (p + 1) n

/-- Embedding of intel_vgpu_iommu_notifier: on a dma unmap notification,
invalidate every cache entry whose gfn falls inside the unmapped iova
range (PAGE_SHIFT is 12, PAGE_SIZE is 4096 on this platform; the header
is outside src). -/
def intel_vgpu_iommu_notifier (action iova size : Nat) (st : CacheState) :
    CacheState :=
  if action = VFIO_IOMMU_NOTIFY_DMA_UNMAP then
    iommu_unmap_loop st (iova >>> 12) (size / 4096)
  else st

/-- State of the kvmgt guest info protection table together with logs of
the kvm page-track collaborator calls.  The fixed-bucket hash table of the
source is a set keyed by gfn, embedded as a list without duplicates. -/
structure KvmState where
  ptable : List Nat
  trackAddLog : List Nat
  trackRemoveLog : List Nat
deriving DecidableEq, Repr

/-- Embedding of kvmgt_gfn_is_write_protected via
__kvmgt_protect_table_find. -/
def kvmgt_gfn_is_write_protected : List Nat → Nat → Bool
  | [], _ => false
  | p :: ps, g => p == g || kvmgt_gfn_is_write_protected ps g

/-- Embedding of kvmgt_protect_table_del: drop the entry found for the
gfn, if any. -/
def kvmgt_protect_table_del : List Nat → Nat → List Nat
  | [], _ => []
  | p :: ps, g => if p = g then ps else p :: kvmgt_protect_table_del ps g

/-- Embedding of kvmgt_write_protect_add: an invalid handle fails with
ESRCH (-3); a gfn whose memslot does not resolve fails with EINVAL (-22)
and changes nothing; an already protected gfn is a no-op; otherwise the
host write trap is installed (logged) and the gfn is tracked. -/
def kvmgt_write_protect_add (handle : Nat) (slotOf : Nat → Option Nat)
    (gfn : Nat) (st : KvmState) : Int × KvmState :=
  if handle_valid handle then
    match slotOf gfn with
    | none => (-22, st)
    | some _ =>
      if kvmgt_gfn_is_write_protected st.ptable gfn then (0, st)
      else
        (0, { st with trackAddLog := st.trackAddLog ++ [gfn],
                      ptable := gfn :: st.ptable })
  else (-3, st)

/-- Embedding of kvmgt_write_protect_remove: an invalid handle returns 0
(success, not an error); a gfn whose memslot does not resolve fails with
EINVAL; an untracked gfn is a no-op; otherwise the host write trap is
removed (logged) and the gfn leaves the table. -/
def kvmgt_write_protect_remove (handle : Nat) (slotOf : Nat → Option Nat)
    (gfn : Nat) (st : KvmState) : Int × KvmState :=
  if handle_valid handle then
    match slotOf gfn with
    | none => (-22, st)
    | some _ =>
      if kvmgt_gfn_is_write_protected st.ptable gfn then
        (0, { st with trackRemoveLog := st.trackRemoveLog ++ [gfn],
                      ptable := kvmgt_protect_table_del st.ptable gfn })
      else (0, st)
  else (0, st)

/-- Embedding of kvmgt_rw_gpa: an invalid handle fails with ESRCH (-3),
otherwise the kvm guest access collaborator result is forwarded as is. -/
def kvmgt_rw_gpa (handle : Nat) (kvmRw : Bool → Nat → Nat → Int)
    (gpa len : Nat) (write : Bool) : Int :=
  if handle_valid handle then kvmRw write gpa len else -3

/-- Steps of the one-shot teardown in __intel_vgpu_release, in program
order. -/
inductive RelStep where
  | deactivate
  | releaseRegion (i : Nat)
  | unregIommu
  | unregGroup
  | guestExit
deriving DecidableEq, Repr

/-- State of one vgpu as seen by the release path: the guest handle, the
atomic released flag, the number of registered regions, and a log of the
teardown steps executed so far. -/
structure VgpuRel where
  handle : Nat
  released : Bool
  numRegions : Nat
  log : List RelStep
deriving DecidableEq, Repr

/-- Teardown step sequence of __intel_vgpu_release for n registered
regions: deactivate, then every region release in registration order,
then notifier unregistration and guest info teardown. -/
def teardownTrace (n : Nat) : List RelStep :=
  RelStep.deactivate :: (List.range n).map RelStep.releaseRegion
    ++ [RelStep.unregIommu, RelStep.unregGroup, RelStep.guestExit]

/-- Embedding of __intel_vgpu_release: return if the handle is already
invalid, return if the atomic cmpxchg on the released flag sees it set,
otherwise run the full teardown once and clear the handle. -/
def __intel_vgpu_release (st : VgpuRel) : VgpuRel :=
  if ¬ handle_valid st.handle then st
  else if st.released then st
  else
    { handle := 0, released := true, numRegions := 0,
      log := st.log ++ teardownTrace st.numRegions }

/-- Embedding of the chunk selection of the intel_vgpu_read and
intel_vgpu_write loops: 4 bytes when at least 4 remain and the offset is
4-aligned, else 2 bytes when at least 2 remain and the offset is
2-aligned, else 1 byte. -/
def chunkSize (count pos : Nat) : Nat :=
  if 4 ≤ count ∧ pos % 4 = 0 then 4
  else if 2 ≤ count ∧ pos % 2 = 0 then 2
  else 1

/-- Embedding of the chunked transfer loop shared by intel_vgpu_read and
intel_vgpu_write: rw is the result of intel_vgpu_rw for a call at a given
offset and size (positive means success, as the source returns count on
success).  The result is the list of handler calls made, the returned
value (EFAULT is -14 on a chunk failure, else the byte total), and the
final value of ppos, which advances only past completed chunks.  User
copies are assumed to succeed. -/
def vgpu_rw_chunks (rw : Nat → Nat → Int) (count pos done : Nat) :
    List (Nat × Nat) × Int × Nat :=
  if count = 0 then ([], (done : Int), pos)
  else if rw pos (chunkSize count pos) ≤ 0 then
    ([(pos, chunkSize count pos)], -14, pos)
  else
    match vgpu_rw_chunks rw (count - chunkSize count pos)
        (pos + chunkSize count pos) (done + chunkSize count pos) with
    | (tr, res, fp) => ((pos, chunkSize count pos) :: tr, res, fp)
  termination_by count
  decreasing_by
    have hc : 0 < chunkSize count pos := by
      unfold chunkSize
      split
      · omega
      · split
        · omega
        · omega
    omega

/-- Greedy decomposition of a byte range into aligned chunks of 4, 2 or 1
bytes, written exactly as the loop consumes it. -/
def greedyChunks (count pos : Nat) : List (Nat × Nat) :=
  if count = 0 then []
  else
    (pos, chunkSize count pos) ::
      greedyChunks (count - chunkSize count pos) (pos + chunkSize count pos)
  termination_by count
  decreasing_by
    have hc : 0 < chunkSize count pos := by
      unfold chunkSize
      split
      · omega
      · split
        · omega
        · omega
    omega

/-- Value of VFIO_PCI_NUM_REGIONS from the vfio uapi header (outside src):
config space, six BARs, ROM and VGA give nine fixed indices. -/
def VFIO_PCI_NUM_REGIONS : Nat := 9

/-- Embedding of intel_vgpu_read: a request whose decoded index falls at
or beyond the fixed region count is handed to intel_vgpu_rw whole, in one
call, without touching ppos; otherwise the chunked loop runs. -/
def intel_vgpu_read (rw : Nat → Nat → Int) (count ppos : Nat) :
    List (Nat × Nat) × Int × Nat :=
  if VFIO_PCI_NUM_REGIONS ≤ ppos >>> 40 then ([(ppos, count)], rw ppos count, ppos)
  else vgpu_rw_chunks rw count ppos 0

/-- Embedding of intel_vgpu_write, whose dispatch and loop structure is
identical to intel_vgpu_read with the transfer direction folded into the
rw oracle. -/
def intel_vgpu_write (rw : Nat → Nat → Int) (count ppos : Nat) :
    List (Nat × Nat) × Int × Nat :=
  if VFIO_PCI_NUM_REGIONS ≤ ppos >>> 40 then ([(ppos, count)], rw ppos count, ppos)
  else vgpu_rw_chunks rw count ppos 0

/-- Embedding of the return convention of intel_vgpu_rw: a zero handler
result is turned into the requested count, anything else is passed
through. -/
def vgpu_rw_return (rc : Int) (count : Nat) : Int :=
  if rc = 0 then (count : Int) else rc

/-- Device activity transitions driven by the device state control
byte. -/
inductive DevEvent where
  | activate
  | deactivate
deriving DecidableEq, Repr

/-- State of the device state region: its size, its byte buffer, and the
log of activate and deactivate transitions performed through it. -/
structure DevRegion where
  size : Nat
  base : Nat → Nat
  log : List DevEvent

/-- Overwrite count bytes of a byte buffer at offset pos with bytes taken
from buf, modelling copy_from_user into base plus pos. -/
def writeBytes (base : Nat → Nat) (pos count : Nat) (buf : Nat → Nat) :
    Nat → Nat :=
  fun i => if pos ≤ i ∧ i < pos + count then buf (i - pos) else base i

/-- Embedding of intel_vgpu_reg_rw_device_state.  The VFIO_DEVICE_STOP and
VFIO_DEVICE_START byte values come from a header outside src, so they are
parameters; srRc is the vgpu_save_restore collaborator result.  An offset
at or past the region size fails with EINVAL (-22); byte 0 demands a one
byte access, deactivates on the stop value, activates on the start value,
stores the accepted byte, and rejects every other value with EFAULT (-14)
without storing anything. -/
def intel_vgpu_reg_rw_device_state (stopVal startVal : Nat)
    (srRc : Nat → Nat → Bool → Int) (reg : DevRegion) (buf : Nat → Nat)
    (pos count : Nat) (iswrite : Bool) : Int × DevRegion :=
  if reg.size ≤ pos then (-22, reg)
  else if pos = 0 then
    if count ≠ 1 then (-14, reg)
    else if iswrite then
      if buf 0 = stopVal then
        (0, { reg with base := writeBytes reg.base 0 1 buf,
                       log := reg.log ++ [DevEvent.deactivate] })
      else if buf 0 = startVal then
        (0, { reg with base := writeBytes reg.base 0 1 buf,
                       log := reg.log ++ [DevEvent.activate] })
      else (-14, reg)
    else (0, reg)
  else if iswrite then
    (srRc pos count true, { reg with base := writeBytes reg.base pos count buf })
  else if srRc pos count false ≠ 0 then (-14, reg)
  else (0, reg)

/-- Embedding of intel_vgpu_reg_rw_opregion: a write or an offset at or
past the region size fails with EINVAL (-22); an in-bounds read clamps the
internal copy length to the bytes left in the region and reports success.
The second component is the number of bytes copied to the user buffer. -/
def intel_vgpu_reg_rw_opregion (size pos count : Nat) (iswrite : Bool) :
    Int × Nat :=
  if size ≤ pos ∨ iswrite then (-22, 0)
  else (0, min count (size - pos))

/-- Host oracle whose pin and map steps always succeed, mapping gfn g to
dma address g + 1000. -/
def hostOk : Host :=
  { pin := fun g => some (g + 100), pfn_valid := fun _ => true,
    dma_map := fun p => p + 900, dma_mapping_error := fun _ => false }

/-- Host oracle whose vfio_pin_pages step always fails. -/
def hostPinFail : Host :=
  { pin := fun _ => none, pfn_valid := fun _ => true,
    dma_map := fun p => p + 900, dma_mapping_error := fun _ => false }

/-- Host oracle that pins fine but always fails the dma mapping step. -/
def hostMapFail : Host :=
  { pin := fun g => some (g + 100), pfn_valid := fun _ => true,
    dma_map := fun p => p + 900, dma_mapping_error := fun _ => true }

/-- Cache state with no entries and empty logs. -/
def emptyCache : CacheState :=
  { entries := [], pinLog := [], unpinLog := [], hostMapLog := [], unmapLog := [] }

/-- Cache state holding one entry for gfn 1 at dma address 500 with
reference count 5. -/
def wCache : CacheState :=
  { entries := [⟨1, 500, 5⟩], pinLog := [], unpinLog := [],
    hostMapLog := [], unmapLog := [] }

/-- Vgpu release state with a live handle, two registered regions and the
released flag still clear. -/
def wRel : VgpuRel :=
  { handle := 4096, released := false, numRegions := 2, log := [] }

/-- Protection table state with nothing tracked and empty logs. -/
def emptyKvm : KvmState :=
  { ptable := [], trackAddLog := [], trackRemoveLog := [] }

/-- Device state region of size 8 with a zeroed buffer and no transitions
logged. -/
def wReg : DevRegion := { size := 8, base := fun _ => 0, log := [] }

/-- Transfer oracle that succeeds at offset 0 and fails everywhere
else. -/
def wFailRw : Nat → Nat → Int := fun p _ => if p = 0 then 4 else -1

end Kvmgt

namespace Kvmgt

/-- Positivity of the chunk selection. -/
theorem chunkSize_pos (count pos : Nat) : 0 < chunkSize count pos := by
  unfold chunkSize
  split
  · omega
  · split
    · omega
    · omega

/-- The selected chunk never exceeds the remaining count. -/
theorem chunkSize_le (count pos : Nat) (h : count ≠ 0) :
    chunkSize count pos ≤ count := by
  unfold chunkSize
  split
  · omega
  · split
    · omega
    · omega

/-- The selected chunk is one of 4, 2, 1, is aligned at the offset, and is
the largest such choice that fits the remaining count. -/
theorem chunkSize_greedy (count pos : Nat) (h : 0 < count) :
    chunkSize count pos ≤ count ∧ pos % chunkSize count pos = 0 ∧
    (chunkSize count pos = 4 ∨ chunkSize count pos = 2 ∨ chunkSize count pos = 1) ∧
    (∀ c, (c = 4 ∨ c = 2 ∨ c = 1) → c ≤ count → pos % c = 0 →
      c ≤ chunkSize count pos) := by
  unfold chunkSize
  split
  · next hc =>
    refine ⟨by omega, by omega, by omega, ?_⟩
    intro c hc4 hcle hal
    omega
  · next hc =>
    split
    · next hc2 =>
      refine ⟨by omega, by omega, by omega, ?_⟩
      intro c hc4 hcle hal
      rcases hc4 with rfl | rfl | rfl
      · exact (hc ⟨hcle, hal⟩).elim
      · omega
      · omega
    · next hc2 =>
      refine ⟨by omega, by omega, by omega, ?_⟩
      intro c hc4 hcle hal
      rcases hc4 with rfl | rfl | rfl
      · exact (hc ⟨hcle, hal⟩).elim
      · exact (hc2 ⟨hcle, hal⟩).elim
      · omega

/-- Unfolding of the chunked loop at count zero. -/
theorem vgpu_rw_chunks_zero (rw : Nat → Nat → Int) (pos done : Nat) :
    vgpu_rw_chunks rw 0 pos done = ([], (done : Int), pos) := by
  rw [vgpu_rw_chunks.eq_def]
  simp

/-- Unfolding of the chunked loop at a failing chunk. -/
theorem vgpu_rw_chunks_fail (rw : Nat → Nat → Int) (count pos done : Nat)
    (h : count ≠ 0) (hf : rw pos (chunkSize count pos) ≤ 0) :
    vgpu_rw_chunks rw count pos done =
      ([(pos, chunkSize count pos)], -14, pos) := by
  rw [vgpu_rw_chunks.eq_def]
  simp [h, hf]

/-- Unfolding of the chunked loop at a successful chunk. -/
theorem vgpu_rw_chunks_step (rw : Nat → Nat → Int) (count pos done : Nat)
    (tr : List (Nat × Nat)) (res : Int) (fp : Nat) (h : count ≠ 0)
    (hs : 0 < rw pos (chunkSize count pos))
    (hrec : vgpu_rw_chunks rw (count - chunkSize count pos)
        (pos + chunkSize count pos) (done + chunkSize count pos) = (tr, res, fp)) :
    vgpu_rw_chunks rw count pos done =
      ((pos, chunkSize count pos) :: tr, res, fp) := by
  rw [vgpu_rw_chunks.eq_def]
  have hns : ¬ rw pos (chunkSize count pos) ≤ 0 := by omega
  simp [h, hns, hrec]

/-- Unfolding of the greedy decomposition at count zero. -/
theorem greedyChunks_zero (pos : Nat) : greedyChunks 0 pos = [] := by
  rw [greedyChunks.eq_def]
  simp

/-- Unfolding of the greedy decomposition at a positive count. -/
theorem greedyChunks_step (count pos : Nat) (h : count ≠ 0) :
    greedyChunks count pos =
      (pos, chunkSize count pos) ::
        greedyChunks (count - chunkSize count pos) (pos + chunkSize count pos) := by
  rw [greedyChunks.eq_def]
  simp [h]

/-- C2: when the host dma mapping step fails after the page was already
pinned, gvt_dma_map_page unpins the page before returning the ENOMEM
error, and the failing kvmgt_dma_map_guest_page call leaves the cache
entries untouched: the one pin is matched by one unpin and no successful
host map is recorded. -/
theorem gvt_dma_map_page_rollback (h : Host) (handle gfn pfn : Nat)
    (st : CacheState)
    (hh : handle_valid handle = true)
    (hpin : h.pin gfn = some pfn)
    (hv : h.pfn_valid pfn = true)
    (herr : h.dma_mapping_error (h.dma_map pfn) = true)
    (hg : findGfn st.entries gfn = none) :
    gvt_dma_map_page h gfn st =
      (Except.error (-12),
        { st with pinLog := st.pinLog ++ [gfn],
                  unpinLog := st.unpinLog ++ [gfn] })
    ∧ kvmgt_dma_map_guest_page h handle gfn st =
      (Except.error (-12),
        { st with pinLog := st.pinLog ++ [gfn],
                  unpinLog := st.unpinLog ++ [gfn] }) := by
  have h1 : gvt_dma_map_page h gfn st =
      (Except.error (-12),
        { st with pinLog := st.pinLog ++ [gfn],
                  unpinLog := st.unpinLog ++ [gfn] }) := by
    simp [gvt_dma_map_page, hpin, hv, herr]
  refine ⟨h1, ?_⟩
  simp [kvmgt_dma_map_guest_page, hh, hg, h1]

/-- Witness for the rollback theorem at the concrete map-failing host. -/
theorem gvt_dma_map_page_rollback_witness :
    gvt_dma_map_page hostMapFail 5 emptyCache =
      (Except.error (-12),
        { emptyCache with pinLog := emptyCache.pinLog ++ [5],
                          unpinLog := emptyCache.unpinLog ++ [5] })
    ∧ kvmgt_dma_map_guest_page hostMapFail 4096 5 emptyCache =
      (Except.error (-12),
        { emptyCache with pinLog := emptyCache.pinLog ++ [5],
                          unpinLog := emptyCache.unpinLog ++ [5] }) :=
  gvt_dma_map_page_rollback hostMapFail 4096 5 105 emptyCache (by decide)
    rfl rfl rfl rfl

/-- Injectivity of the region release step constructor. -/
theorem releaseRegion_injective : Function.Injective RelStep.releaseRegion := by
  intro a b hab
  injection hab

/-- C4: from a bound, not yet released state, __intel_vgpu_release runs
the teardown exactly once, releasing every registered region exactly once
in registration order; a repeated call is a no-op, and any call that
observes the released flag already set returns without doing anything. -/
theorem intel_vgpu_release_once (st : VgpuRel)
    (hh : handle_valid st.handle = true) (hr : st.released = false) :
    (__intel_vgpu_release st).log = st.log ++ teardownTrace st.numRegions
    ∧ (__intel_vgpu_release st).released = true
    ∧ (__intel_vgpu_release st).handle = 0
    ∧ __intel_vgpu_release (__intel_vgpu_release st) = __intel_vgpu_release st
    ∧ (∀ s : VgpuRel, s.released = true → __intel_vgpu_release s = s)
    ∧ (∀ i, i < st.numRegions →
        (teardownTrace st.numRegions).count (RelStep.releaseRegion i) = 1) := by
  have hrel : __intel_vgpu_release st =
      { handle := 0, released := true, numRegions := 0,
        log := st.log ++ teardownTrace st.numRegions } := by
    simp [__intel_vgpu_release, hh, hr]
  refine ⟨by rw [hrel], by rw [hrel], by rw [hrel], ?_, ?_, ?_⟩
  · rw [hrel]
    simp [__intel_vgpu_release, handle_valid]
  · intro s hs
    simp [__intel_vgpu_release, hs]
  · intro i hi
    have hmem : RelStep.releaseRegion i ∈
        (List.range st.numRegions).map RelStep.releaseRegion :=
      List.mem_map.mpr ⟨i, List.mem_range.mpr hi, rfl⟩
    have hnd : ((List.range st.numRegions).map RelStep.releaseRegion).Nodup :=
      (List.nodup_range st.numRegions).map releaseRegion_injective
    have hcnt := List.count_eq_one_of_mem hnd hmem
    simp [teardownTrace, List.count_cons, List.count_append, hcnt]

/-- Witness for the one-shot release theorem at a concrete bound state
with two regions. -/
theorem intel_vgpu_release_once_witness :
    (__intel_vgpu_release wRel).log = wRel.log ++ teardownTrace wRel.numRegions
    ∧ (__intel_vgpu_release wRel).released = true
    ∧ (__intel_vgpu_release wRel).handle = 0
    ∧ __intel_vgpu_release (__intel_vgpu_release wRel) = __intel_vgpu_release wRel
    ∧ (∀ s : VgpuRel, s.released = true → __intel_vgpu_release s = s)
    ∧ (∀ i, i < wRel.numRegions →
        (teardownTrace wRel.numRegions).count (RelStep.releaseRegion i) = 1) :=
  intel_vgpu_release_once wRel (by decide) (by decide)

/-- Count of a gfn in a table where the protection lookup reports it
untracked is zero. -/
theorem count_zero_of_not_protected (l : List Nat) (g : Nat)
    (h : kvmgt_gfn_is_write_protected l g = false) : l.count g = 0 := by
  induction l with
  | nil => rfl
  | cons p ps ih =>
    simp [kvmgt_gfn_is_write_protected] at h
    simp [List.count_cons, ih h.2, h.1]

/-- C7: on a bound device with a resolving slot, two consecutive write
protect adds for a fresh gfn both succeed, install the host write trap
exactly once and leave exactly one tracked entry; on an unresolvable slot
the call fails with EINVAL and changes nothing. -/
theorem kvmgt_write_protect_add_idempotent (handle gfn slot : Nat)
    (slotOf : Nat → Option Nat) (st : KvmState)
    (hh : handle_valid handle = true)
    (hs : slotOf gfn = some slot)
    (hnp : kvmgt_gfn_is_write_protected st.ptable gfn = false) :
    (kvmgt_write_protect_add handle slotOf gfn st).1 = 0
    ∧ (kvmgt_write_protect_add handle slotOf gfn
        (kvmgt_write_protect_add handle slotOf gfn st).2).1 = 0
    ∧ (kvmgt_write_protect_add handle slotOf gfn
        (kvmgt_write_protect_add handle slotOf gfn st).2).2.trackAddLog
      = st.trackAddLog ++ [gfn]
    ∧ (kvmgt_write_protect_add handle slotOf gfn
        (kvmgt_write_protect_add handle slotOf gfn st).2).2.ptable.count gfn = 1
    ∧ (∀ (sf : Nat → Option Nat) (g : Nat) (s2 : KvmState), sf g = none →
        kvmgt_write_protect_add handle sf g s2 = (-22, s2)) := by
  have h1 : kvmgt_write_protect_add handle slotOf gfn st =
      (0, { st with trackAddLog := st.trackAddLog ++ [gfn],
                    ptable := gfn :: st.ptable }) := by
    simp [kvmgt_write_protect_add, hh, hs, hnp]
  have hprot : kvmgt_gfn_is_write_protected (gfn :: st.ptable) gfn = true := by
    simp [kvmgt_gfn_is_write_protected]
  have h2 : kvmgt_write_protect_add handle slotOf gfn
      ({ st with trackAddLog := st.trackAddLog ++ [gfn],
                 ptable := gfn :: st.ptable } : KvmState)
      = (0, { st with trackAddLog := st.trackAddLog ++ [gfn],
                      ptable := gfn :: st.ptable }) := by
    simp [kvmgt_write_protect_add, hh, hs, hprot]
  rw [h1]
  refine ⟨rfl, ?_, ?_, ?_, ?_⟩
  · rw [h2]
  · rw [h2]
  · rw [h2]
    simp [List.count_cons, count_zero_of_not_protected st.ptable gfn hnp]
  · intro sf g s2 hsf
    simp [kvmgt_write_protect_add, hh, hsf]

/-- Witness for the write protect idempotence theorem at a concrete bound
handle, resolving slot map and empty table. -/
theorem kvmgt_write_protect_add_idempotent_witness :
    (kvmgt_write_protect_add 4096 (fun _ => some 0) 7 emptyKvm).1 = 0
    ∧ (kvmgt_write_protect_add 4096 (fun _ => some 0) 7
        (kvmgt_write_protect_add 4096 (fun _ => some 0) 7 emptyKvm).2).1 = 0
    ∧ (kvmgt_write_protect_add 4096 (fun _ => some 0) 7
        (kvmgt_write_protect_add 4096 (fun _ => some 0) 7 emptyKvm).2).2.trackAddLog
      = emptyKvm.trackAddLog ++ [7]
    ∧ (kvmgt_write_protect_add 4096 (fun _ => some 0) 7
        (kvmgt_write_protect_add 4096 (fun _ => some 0) 7 emptyKvm).2).2.ptable.count 7 = 1
    ∧ (∀ (sf : Nat → Option Nat) (g : Nat) (s2 : KvmState), sf g = none →
        kvmgt_write_protect_add 4096 sf g s2 = (-22, s2)) :=
  kvmgt_write_protect_add_idempotent 4096 7 0 (fun _ => some 0) emptyKvm
    (by decide) rfl rfl

/-- C8 counterexample: kvmgt_dma_map_guest_page returns the very same
EINVAL for an unbound handle as for a bound device whose page pin fails,
so the unbound failure is not distinct from the bound failure for every
listed operation. -/
theorem kvmgt_error_distinct_counterexample :
    (kvmgt_dma_map_guest_page hostPinFail 0 5 emptyCache).1 = Except.error (-22)
    ∧ (kvmgt_dma_map_guest_page hostPinFail 4096 5 emptyCache).1 = Except.error (-22) :=
  ⟨rfl, rfl⟩

/-- C8 amended: write protect add distinguishes the unbound handle (ESRCH)
from a bound device with an unresolvable slot (EINVAL), and gpa accesses
fail with ESRCH when unbound while a bound device forwards the kvm result;
but write protect remove returns success on an unbound handle, dma unmap
has no error channel and is a silent no-op in both situations, and dma map
returns the same EINVAL for an unbound handle as for a failing pin. -/
theorem kvmgt_error_distinct_amended (h0 h1 gfn gpa len d : Nat)
    (slotOf : Nat → Option Nat) (kvmRw : Bool → Nat → Nat → Int)
    (hb : Host) (st : KvmState) (cst : CacheState)
    (h0v : handle_valid h0 = false) (h1v : handle_valid h1 = true)
    (hslot : slotOf gfn = none) (hpin : hb.pin gfn = none)
    (hgf : findGfn cst.entries gfn = none)
    (hdd : findDma cst.entries d = none) :
    kvmgt_write_protect_add h0 slotOf gfn st = (-3, st)
    ∧ kvmgt_write_protect_add h1 slotOf gfn st = (-22, st)
    ∧ kvmgt_write_protect_remove h0 slotOf gfn st = (0, st)
    ∧ kvmgt_write_protect_remove h1 slotOf gfn st = (-22, st)
    ∧ (kvmgt_dma_map_guest_page hb h0 gfn cst).1 = Except.error (-22)
    ∧ (kvmgt_dma_map_guest_page hb h1 gfn cst).1 = Except.error (-22)
    ∧ kvmgt_dma_unmap_guest_page h0 d cst = cst
    ∧ kvmgt_dma_unmap_guest_page h1 d cst = cst
    ∧ kvmgt_rw_gpa h0 kvmRw gpa len true = -3
    ∧ kvmgt_rw_gpa h1 kvmRw gpa len true = kvmRw true gpa len := by
  refine ⟨?_, ?_, ?_, ?_, ?_, ?_, ?_, ?_, ?_, ?_⟩ <;>
    simp [kvmgt_write_protect_add, kvmgt_write_protect_remove,
      kvmgt_dma_map_guest_page, kvmgt_dma_unmap_guest_page, kvmgt_rw_gpa,
      gvt_dma_map_page, h0v, h1v, hslot, hpin, hgf, hdd]

/-- Witness for the amended error taxonomy theorem at concrete handles,
slot map, host and states. -/
theorem kvmgt_error_distinct_amended_witness :
    kvmgt_write_protect_add 0 (fun _ => none) 5 emptyKvm = (-3, emptyKvm)
    ∧ kvmgt_write_protect_add 4096 (fun _ => none) 5 emptyKvm = (-22, emptyKvm)
    ∧ kvmgt_write_protect_remove 0 (fun _ => none) 5 emptyKvm = (0, emptyKvm)
    ∧ kvmgt_write_protect_remove 4096 (fun _ => none) 5 emptyKvm = (-22, emptyKvm)
    ∧ (kvmgt_dma_map_guest_page hostPinFail 0 5 emptyCache).1 = Except.error (-22)
    ∧ (kvmgt_dma_map_guest_page hostPinFail 4096 5 emptyCache).1 = Except.error (-22)
    ∧ kvmgt_dma_unmap_guest_page 0 500 emptyCache = emptyCache
    ∧ kvmgt_dma_unmap_guest_page 4096 500 emptyCache = emptyCache
    ∧ kvmgt_rw_gpa 0 (fun _ _ _ => -14) 64 4 true = -3
    ∧ kvmgt_rw_gpa 4096 (fun _ _ _ => -14) 64 4 true = (fun _ _ _ => (-14 : Int)) true 64 4 :=
  kvmgt_error_distinct_amended 0 4096 5 64 4 500 (fun _ => none)
    (fun _ _ _ => -14) hostPinFail emptyKvm emptyCache
    (by decide) (by decide) rfl rfl rfl rfl

/-- C9: on the device state region, a one byte write of the start value at
offset 0 succeeds, activates the device and stores the byte; a following
write of the stop value succeeds, deactivates and stores the byte; a write
of any other value fails with EFAULT and leaves the region, in particular
the stored control byte, unchanged. -/
theorem device_state_control_byte (stopVal startVal v : Nat)
    (srRc : Nat → Nat → Bool → Int) (reg : DevRegion)
    (hsz : 0 < reg.size) (hsv : stopVal ≠ startVal)
    (hv1 : v ≠ stopVal) (hv2 : v ≠ startVal) :
    (intel_vgpu_reg_rw_device_state stopVal startVal srRc reg
        (fun _ => startVal) 0 1 true).1 = 0
    ∧ (intel_vgpu_reg_rw_device_state stopVal startVal srRc reg
        (fun _ => startVal) 0 1 true).2.base 0 = startVal
    ∧ (intel_vgpu_reg_rw_device_state stopVal startVal srRc reg
        (fun _ => startVal) 0 1 true).2.log = reg.log ++ [DevEvent.activate]
    ∧ (intel_vgpu_reg_rw_device_state stopVal startVal srRc
        (intel_vgpu_reg_rw_device_state stopVal startVal srRc reg
          (fun _ => startVal) 0 1 true).2 (fun _ => stopVal) 0 1 true).1 = 0
    ∧ (intel_vgpu_reg_rw_device_state stopVal startVal srRc
        (intel_vgpu_reg_rw_device_state stopVal startVal srRc reg
          (fun _ => startVal) 0 1 true).2 (fun _ => stopVal) 0 1 true).2.base 0 = stopVal
    ∧ (intel_vgpu_reg_rw_device_state stopVal startVal srRc
        (intel_vgpu_reg_rw_device_state stopVal startVal srRc reg
          (fun _ => startVal) 0 1 true).2 (fun _ => stopVal) 0 1 true).2.log
      = reg.log ++ [DevEvent.activate, DevEvent.deactivate]
    ∧ (intel_vgpu_reg_rw_device_state stopVal startVal srRc
        (intel_vgpu_reg_rw_device_state stopVal startVal srRc
          (intel_vgpu_reg_rw_device_state stopVal startVal srRc reg
            (fun _ => startVal) 0 1 true).2 (fun _ => stopVal) 0 1 true).2
        (fun _ => v) 0 1 true).1 = -14
    ∧ (intel_vgpu_reg_rw_device_state stopVal startVal srRc
        (intel_vgpu_reg_rw_device_state stopVal startVal srRc
          (intel_vgpu_reg_rw_device_state stopVal startVal srRc reg
            (fun _ => startVal) 0 1 true).2 (fun _ => stopVal) 0 1 true).2
        (fun _ => v) 0 1 true).2
      = (intel_vgpu_reg_rw_device_state stopVal startVal srRc
          (intel_vgpu_reg_rw_device_state stopVal startVal srRc reg
            (fun _ => startVal) 0 1 true).2 (fun _ => stopVal) 0 1 true).2 := by
  have hle : ¬ reg.size ≤ 0 := by omega
  have hr1 : intel_vgpu_reg_rw_device_state stopVal startVal srRc reg
      (fun _ => startVal) 0 1 true
      = (0, { reg with base := writeBytes reg.base 0 1 (fun _ => startVal),
                       log := reg.log ++ [DevEvent.activate] }) := by
    simp [intel_vgpu_reg_rw_device_state, hle, Ne.symm hsv]
  rw [hr1]
  have hr2 : intel_vgpu_reg_rw_device_state stopVal startVal srRc
      ({ reg with base := writeBytes reg.base 0 1 (fun _ => startVal),
                  log := reg.log ++ [DevEvent.activate] } : DevRegion)
      (fun _ => stopVal) 0 1 true
      = (0, { reg with
              base := writeBytes (writeBytes reg.base 0 1 (fun _ => startVal)) 0 1
                        (fun _ => stopVal),
              log := (reg.log ++ [DevEvent.activate]) ++ [DevEvent.deactivate] }) := by
    simp [intel_vgpu_reg_rw_device_state, hle]
  rw [hr2]
  have hr3 : intel_vgpu_reg_rw_device_state stopVal startVal srRc
      ({ reg with
          base := writeBytes (writeBytes reg.base 0 1 (fun _ => startVal)) 0 1
                    (fun _ => stopVal),
          log := (reg.log ++ [DevEvent.activate]) ++ [DevEvent.deactivate] } : DevRegion)
      (fun _ => v) 0 1 true
      = (-14, { reg with
              base := writeBytes (writeBytes reg.base 0 1 (fun _ => startVal)) 0 1
                        (fun _ => stopVal),
              log := (reg.log ++ [DevEvent.activate]) ++ [DevEvent.deactivate] }) := by
    simp [intel_vgpu_reg_rw_device_state, hle, hv1, hv2]
  rw [hr3]
  refine ⟨rfl, ?_, rfl, rfl, ?_, ?_, rfl, rfl⟩
  · simp [writeBytes]
  · simp [writeBytes]
  · simp

/-- Witness for the control byte theorem at concrete stop, start and
rejected values. -/
theorem device_state_control_byte_witness :
    (intel_vgpu_reg_rw_device_state 4 3 (fun _ _ _ => 0) wReg
        (fun _ => 3) 0 1 true).1 = 0
    ∧ (intel_vgpu_reg_rw_device_state 4 3 (fun _ _ _ => 0) wReg
        (fun _ => 3) 0 1 true).2.base 0 = 3
    ∧ (intel_vgpu_reg_rw_device_state 4 3 (fun _ _ _ => 0) wReg
        (fun _ => 3) 0 1 true).2.log = wReg.log ++ [DevEvent.activate]
    ∧ (intel_vgpu_reg_rw_device_state 4 3 (fun _ _ _ => 0)
        (intel_vgpu_reg_rw_device_state 4 3 (fun _ _ _ => 0) wReg
          (fun _ => 3) 0 1 true).2 (fun _ => 4) 0 1 true).1 = 0
    ∧ (intel_vgpu_reg_rw_device_state 4 3 (fun _ _ _ => 0)
        (intel_vgpu_reg_rw_device_state 4 3 (fun _ _ _ => 0) wReg
          (fun _ => 3) 0 1 true).2 (fun _ => 4) 0 1 true).2.base 0 = 4
    ∧ (intel_vgpu_reg_rw_device_state 4 3 (fun _ _ _ => 0)
        (intel_vgpu_reg_rw_device_state 4 3 (fun _ _ _ => 0) wReg
          (fun _ => 3) 0 1 true).2 (fun _ => 4) 0 1 true).2.log
      = wReg.log ++ [DevEvent.activate, DevEvent.deactivate]
    ∧ (intel_vgpu_reg_rw_device_state 4 3 (fun _ _ _ => 0)
        (intel_vgpu_reg_rw_device_state 4 3 (fun _ _ _ => 0)
          (intel_vgpu_reg_rw_device_state 4 3 (fun _ _ _ => 0) wReg
            (fun _ => 3) 0 1 true).2 (fun _ => 4) 0 1 true).2
        (fun _ => 7) 0 1 true).1 = -14
    ∧ (intel_vgpu_reg_rw_device_state 4 3 (fun _ _ _ => 0)
        (intel_vgpu_reg_rw_device_state 4 3 (fun _ _ _ => 0)
          (intel_vgpu_reg_rw_device_state 4 3 (fun _ _ _ => 0) wReg
            (fun _ => 3) 0 1 true).2 (fun _ => 4) 0 1 true).2
        (fun _ => 7) 0 1 true).2
      = (intel_vgpu_reg_rw_device_state 4 3 (fun _ _ _ => 0)
          (intel_vgpu_reg_rw_device_state 4 3 (fun _ _ _ => 0) wReg
            (fun _ => 3) 0 1 true).2 (fun _ => 4) 0 1 true).2 :=
  device_state_control_byte 4 3 7 (fun _ _ _ => 0) wReg
    (by decide) (by decide) (by decide) (by decide)

/-- C10: an in-bounds opregion read whose count runs past the region end
clamps the internal copy to the bytes left yet reports success, so the
dispatcher returns the full requested count; every opregion write and
every access starting at or past the region size fails with EINVAL, which
the dispatcher passes through. -/
theorem opregion_truncated_read (size pos count : Nat)
    (hpos : pos < size) (hover : size < pos + count) :
    (intel_vgpu_reg_rw_opregion size pos count false).1 = 0
    ∧ (intel_vgpu_reg_rw_opregion size pos count false).2 = size - pos
    ∧ vgpu_rw_return (intel_vgpu_reg_rw_opregion size pos count false).1 count
      = (count : Int)
    ∧ (∀ c, (intel_vgpu_reg_rw_opregion size pos c true).1 = -22)
    ∧ (∀ p c w, size ≤ p → (intel_vgpu_reg_rw_opregion size p c w).1 = -22
        ∧ vgpu_rw_return (intel_vgpu_reg_rw_opregion size p c w).1 c = -22) := by
  have hnle : ¬ size ≤ pos := by omega
  have hread : intel_vgpu_reg_rw_opregion size pos count false
      = (0, min count (size - pos)) := by
    simp [intel_vgpu_reg_rw_opregion, hnle]
  refine ⟨by rw [hread], ?_, by rw [hread]; simp [vgpu_rw_return], ?_, ?_⟩
  · rw [hread]
    simp
    omega
  · intro c
    simp [intel_vgpu_reg_rw_opregion]
  · intro p c w hp
    have hw : intel_vgpu_reg_rw_opregion size p c w = (-22, 0) := by
      simp [intel_vgpu_reg_rw_opregion, hp]
    rw [hw]
    exact ⟨rfl, by simp [vgpu_rw_return]⟩

/-- A gfn the gfn index cannot find occurs zero times in the entry
list. -/
theorem countGfn_eq_zero_of_findGfn_none (es : List GvtDma) (g : Nat)
    (h : findGfn es g = none) : countGfn es g = 0 := by
  induction es with
  | nil => rfl
  | cons e es ih =>
    by_cases he : e.gfn = g
    · simp [findGfn, he] at h
    · simp only [findGfn, if_neg he] at h
      simp [countGfn, he, ih h]

/-- C1: a second map call on the same gfn right after a successful first
one returns the identical dma address without a new host pin or map,
leaving exactly one cache entry for the gfn with reference count 2; the
first unmap restores reference count 1, the second removes the entry from
both index views, and the host unmap plus unpin runs exactly once in
total. -/
theorem dma_map_unmap_refcount (h : Host) (handle gfn pfn : Nat)
    (st0 : CacheState)
    (hh : handle_valid handle = true)
    (hpin : h.pin gfn = some pfn)
    (hv : h.pfn_valid pfn = true)
    (hmap : h.dma_mapping_error (h.dma_map pfn) = false)
    (hg : findGfn st0.entries gfn = none)
    (hd : findDma st0.entries (h.dma_map pfn) = none) :
    (kvmgt_dma_map_guest_page h handle gfn st0).1 = Except.ok (h.dma_map pfn)
    ∧ (kvmgt_dma_map_guest_page h handle gfn
        (kvmgt_dma_map_guest_page h handle gfn st0).2).1 = Except.ok (h.dma_map pfn)
    ∧ (kvmgt_dma_map_guest_page h handle gfn
        (kvmgt_dma_map_guest_page h handle gfn st0).2).2.pinLog
      = (kvmgt_dma_map_guest_page h handle gfn st0).2.pinLog
    ∧ (kvmgt_dma_map_guest_page h handle gfn
        (kvmgt_dma_map_guest_page h handle gfn st0).2).2.hostMapLog
      = (kvmgt_dma_map_guest_page h handle gfn st0).2.hostMapLog
    ∧ countGfn (kvmgt_dma_map_guest_page h handle gfn
        (kvmgt_dma_map_guest_page h handle gfn st0).2).2.entries gfn = 1
    ∧ findGfn (kvmgt_dma_map_guest_page h handle gfn
        (kvmgt_dma_map_guest_page h handle gfn st0).2).2.entries gfn
      = some ⟨gfn, h.dma_map pfn, 2⟩
    ∧ findGfn (kvmgt_dma_unmap_guest_page handle (h.dma_map pfn)
        (kvmgt_dma_map_guest_page h handle gfn
          (kvmgt_dma_map_guest_page h handle gfn st0).2).2).entries gfn
      = some ⟨gfn, h.dma_map pfn, 1⟩
    ∧ findGfn (kvmgt_dma_unmap_guest_page handle (h.dma_map pfn)
        (kvmgt_dma_unmap_guest_page handle (h.dma_map pfn)
          (kvmgt_dma_map_guest_page h handle gfn
            (kvmgt_dma_map_guest_page h handle gfn st0).2).2)).entries gfn = none
    ∧ findDma (kvmgt_dma_unmap_guest_page handle (h.dma_map pfn)
        (kvmgt_dma_unmap_guest_page handle (h.dma_map pfn)
          (kvmgt_dma_map_guest_page h handle gfn
            (kvmgt_dma_map_guest_page h handle gfn st0).2).2)).entries
        (h.dma_map pfn) = none
    ∧ (kvmgt_dma_unmap_guest_page handle (h.dma_map pfn)
        (kvmgt_dma_unmap_guest_page handle (h.dma_map pfn)
          (kvmgt_dma_map_guest_page h handle gfn
            (kvmgt_dma_map_guest_page h handle gfn st0).2).2)).unmapLog
      = st0.unmapLog ++ [gfn] := by
  have e1 : kvmgt_dma_map_guest_page h handle gfn st0 =
      (Except.ok (h.dma_map pfn),
        { st0 with entries := ⟨gfn, h.dma_map pfn, 1⟩ :: st0.entries,
                   pinLog := st0.pinLog ++ [gfn],
                   hostMapLog := st0.hostMapLog ++ [gfn] }) := by
    simp [kvmgt_dma_map_guest_page, hh, hg, gvt_dma_map_page, hpin, hv, hmap]
  have e2 : kvmgt_dma_map_guest_page h handle gfn
      ({ st0 with entries := ⟨gfn, h.dma_map pfn, 1⟩ :: st0.entries,
                  pinLog := st0.pinLog ++ [gfn],
                  hostMapLog := st0.hostMapLog ++ [gfn] } : CacheState) =
      (Except.ok (h.dma_map pfn),
        { st0 with entries := ⟨gfn, h.dma_map pfn, 2⟩ :: st0.entries,
                   pinLog := st0.pinLog ++ [gfn],
                   hostMapLog := st0.hostMapLog ++ [gfn] }) := by
    simp [kvmgt_dma_map_guest_page, hh, findGfn, incRefGfn]
  have e3 : kvmgt_dma_unmap_guest_page handle (h.dma_map pfn)
      ({ st0 with entries := ⟨gfn, h.dma_map pfn, 2⟩ :: st0.entries,
                  pinLog := st0.pinLog ++ [gfn],
                  hostMapLog := st0.hostMapLog ++ [gfn] } : CacheState) =
      { st0 with entries := ⟨gfn, h.dma_map pfn, 1⟩ :: st0.entries,
                 pinLog := st0.pinLog ++ [gfn],
                 hostMapLog := st0.hostMapLog ++ [gfn] } := by
    simp [kvmgt_dma_unmap_guest_page, hh, findDma, decRefDma]
  have e4 : kvmgt_dma_unmap_guest_page handle (h.dma_map pfn)
      ({ st0 with entries := ⟨gfn, h.dma_map pfn, 1⟩ :: st0.entries,
                  pinLog := st0.pinLog ++ [gfn],
                  hostMapLog := st0.hostMapLog ++ [gfn] } : CacheState) =
      { st0 with pinLog := st0.pinLog ++ [gfn],
                 unpinLog := st0.unpinLog ++ [gfn],
                 hostMapLog := st0.hostMapLog ++ [gfn],
                 unmapLog := st0.unmapLog ++ [gfn] } := by
    simp [kvmgt_dma_unmap_guest_page, hh, findDma, removeByDma,
      gvt_dma_unmap_page]
  rw [e1]
  simp only
  rw [e2]
  simp only
  rw [e3, e4]
  simp [countGfn, findGfn, hg, hd,
    countGfn_eq_zero_of_findGfn_none st0.entries gfn hg]

/-- Witness for the refcount lifecycle theorem at the concrete succeeding
host, bound handle 4096, gfn 5 and the empty cache. -/
theorem dma_map_unmap_refcount_witness :
    (kvmgt_dma_map_guest_page hostOk 4096 5 emptyCache).1
      = Except.ok (hostOk.dma_map 105)
    ∧ (kvmgt_dma_map_guest_page hostOk 4096 5
        (kvmgt_dma_map_guest_page hostOk 4096 5 emptyCache).2).1
      = Except.ok (hostOk.dma_map 105)
    ∧ (kvmgt_dma_map_guest_page hostOk 4096 5
        (kvmgt_dma_map_guest_page hostOk 4096 5 emptyCache).2).2.pinLog
      = (kvmgt_dma_map_guest_page hostOk 4096 5 emptyCache).2.pinLog
    ∧ (kvmgt_dma_map_guest_page hostOk 4096 5
        (kvmgt_dma_map_guest_page hostOk 4096 5 emptyCache).2).2.hostMapLog
      = (kvmgt_dma_map_guest_page hostOk 4096 5 emptyCache).2.hostMapLog
    ∧ countGfn (kvmgt_dma_map_guest_page hostOk 4096 5
        (kvmgt_dma_map_guest_page hostOk 4096 5 emptyCache).2).2.entries 5 = 1
    ∧ findGfn (kvmgt_dma_map_guest_page hostOk 4096 5
        (kvmgt_dma_map_guest_page hostOk 4096 5 emptyCache).2).2.entries 5
      = some ⟨5, hostOk.dma_map 105, 2⟩
    ∧ findGfn (kvmgt_dma_unmap_guest_page 4096 (hostOk.dma_map 105)
        (kvmgt_dma_map_guest_page hostOk 4096 5
          (kvmgt_dma_map_guest_page hostOk 4096 5 emptyCache).2).2).entries 5
      = some ⟨5, hostOk.dma_map 105, 1⟩
    ∧ findGfn (kvmgt_dma_unmap_guest_page 4096 (hostOk.dma_map 105)
        (kvmgt_dma_unmap_guest_page 4096 (hostOk.dma_map 105)
          (kvmgt_dma_map_guest_page hostOk 4096 5
            (kvmgt_dma_map_guest_page hostOk 4096 5 emptyCache).2).2)).entries 5 = none
    ∧ findDma (kvmgt_dma_unmap_guest_page 4096 (hostOk.dma_map 105)
        (kvmgt_dma_unmap_guest_page 4096 (hostOk.dma_map 105)
          (kvmgt_dma_map_guest_page hostOk 4096 5
            (kvmgt_dma_map_guest_page hostOk 4096 5 emptyCache).2).2)).entries
        (hostOk.dma_map 105) = none
    ∧ (kvmgt_dma_unmap_guest_page 4096 (hostOk.dma_map 105)
        (kvmgt_dma_unmap_guest_page 4096 (hostOk.dma_map 105)
          (kvmgt_dma_map_guest_page hostOk 4096 5
            (kvmgt_dma_map_guest_page hostOk 4096 5 emptyCache).2).2)).unmapLog
      = emptyCache.unmapLog ++ [5] :=
  dma_map_unmap_refcount hostOk 4096 5 105 emptyCache (by decide)
    rfl rfl rfl rfl rfl

/-- The entry the gfn index returns carries the gfn it was found
under. -/
theorem findGfn_gfn_eq (es : List GvtDma) (g : Nat) (e : GvtDma)
    (h : findGfn es g = some e) : e.gfn = g := by
  induction es with
  | nil => simp [findGfn] at h
  | cons x xs ih =>
    simp only [findGfn] at h
    split at h
    · next hx =>
      cases h
      exact hx
    · exact ih h

/-- The entry the gfn index returns is a member of the entry list. -/
theorem findGfn_mem (es : List GvtDma) (g : Nat) (e : GvtDma)
    (h : findGfn es g = some e) : e ∈ es := by
  induction es with
  | nil => simp [findGfn] at h
  | cons x xs ih =>
    simp only [findGfn] at h
    split at h
    · cases h
      exact List.mem_cons_self _ _
    · exact List.mem_cons_of_mem _ (ih h)

/-- Membership gives a positive dma address count. -/
theorem countDma_pos_of_mem (es : List GvtDma) (e : GvtDma)
    (hm : e ∈ es) : 0 < countDma es e.dma_addr := by
  induction es with
  | nil => cases hm
  | cons x xs ih =>
    rcases List.mem_cons.mp hm with rfl | hm2
    · simp only [countDma]
      split
      · omega
      · next hq => simp at hq
    · have h2 := ih hm2
      simp only [countDma]
      split <;> omega

/-- Removing by gfn yields a sublist of the entry list. -/
theorem removeByGfn_sublist (es : List GvtDma) (p : Nat) :
    List.Sublist (removeByGfn es p) es := by
  induction es with
  | nil => simp [removeByGfn]
  | cons x xs ih =>
    simp only [removeByGfn]
    split
    · exact List.Sublist.cons x (List.Sublist.refl xs)
    · exact List.Sublist.cons₂ x ih

/-- Gfn counts are monotone along sublists. -/
theorem countGfn_le_of_sublist (es1 es2 : List GvtDma) (g : Nat)
    (h : List.Sublist es1 es2) : countGfn es1 g ≤ countGfn es2 g := by
  induction h with
  | slnil => exact Nat.le_refl _
  | cons a h ih =>
    simp only [countGfn]
    split <;> omega
  | cons₂ a h ih =>
    simp only [countGfn]
    split <;> omega

/-- Dma address counts are monotone along sublists. -/
theorem countDma_le_of_sublist (es1 es2 : List GvtDma) (d : Nat)
    (h : List.Sublist es1 es2) : countDma es1 d ≤ countDma es2 d := by
  induction h with
  | slnil => exact Nat.le_refl _
  | cons a h ih =>
    simp only [countDma]
    split <;> omega
  | cons₂ a h ih =>
    simp only [countDma]
    split <;> omega

/-- Removing the entry of a different gfn leaves a gfn lookup
unchanged. -/
theorem findGfn_removeByGfn_ne (es : List GvtDma) (p g : Nat) (hne : p ≠ g) :
    findGfn (removeByGfn es p) g = findGfn es g := by
  induction es with
  | nil => rfl
  | cons x xs ih =>
    by_cases hx : x.gfn = p
    · have hxg : ¬ x.gfn = g := by
        rw [hx]
        exact hne
      simp [removeByGfn, findGfn, hx, hxg, hne]
    · by_cases hg2 : x.gfn = g
      · simp [removeByGfn, findGfn, hx, hg2, hne, Ne.symm hne]
      · simp [removeByGfn, findGfn, hx, hg2, ih]

/-- Removing the entry of a different gfn leaves a gfn count
unchanged. -/
theorem countGfn_removeByGfn_ne (es : List GvtDma) (p g : Nat) (hne : p ≠ g) :
    countGfn (removeByGfn es p) g = countGfn es g := by
  induction es with
  | nil => rfl
  | cons x xs ih =>
    by_cases hx : x.gfn = p
    · have hxg : ¬ x.gfn = g := by
        rw [hx]
        exact hne
      simp [removeByGfn, countGfn, hx, hxg, hne]
    · simp [removeByGfn, countGfn, hx, ih]

/-- When the dma address of the unique g entry occurs exactly once,
removing the entry of a different gfn keeps its count at one. -/
theorem countDma_removeByGfn_ne (es : List GvtDma) (p g d r : Nat)
    (hne : p ≠ g) (hf : findGfn es g = some ⟨g, d, r⟩)
    (hcd : countDma es d = 1) : countDma (removeByGfn es p) d = 1 := by
  induction es with
  | nil => simp [findGfn] at hf
  | cons x xs ih =>
    by_cases hx : x.gfn = p
    · have hxg : ¬ x.gfn = g := by
        rw [hx]
        exact hne
      have hf2 : findGfn xs g = some ⟨g, d, r⟩ := by
        simpa [findGfn, hxg] using hf
      have hmem := findGfn_mem xs g _ hf2
      have hpos : 0 < countDma xs d := by
        simpa using countDma_pos_of_mem xs ⟨g, d, r⟩ hmem
      simp only [countDma] at hcd
      simp only [removeByGfn, if_pos hx]
      split at hcd <;> omega
    · by_cases hg2 : x.gfn = g
      · have hx2 : x = ⟨g, d, r⟩ := by
          have hf3 := hf
          simp only [findGfn, if_pos hg2] at hf3
          cases hf3
          rfl
        have hxd : x.dma_addr = d := by rw [hx2]
        simp only [countDma] at hcd
        rw [if_pos hxd] at hcd
        have h0 : countDma xs d = 0 := by omega
        have hle := countDma_le_of_sublist _ _ d (removeByGfn_sublist xs p)
        simp only [removeByGfn, if_neg hx, countDma]
        rw [if_pos hxd]
        omega
      · have hf2 : findGfn xs g = some ⟨g, d, r⟩ := by
          simpa [findGfn, hg2] using hf
        have hmem := findGfn_mem xs g _ hf2
        have hpos : 0 < countDma xs d := by
          simpa using countDma_pos_of_mem xs ⟨g, d, r⟩ hmem
        simp only [countDma] at hcd
        have hxd : ¬ x.dma_addr = d := by
          intro hh2
          rw [if_pos hh2] at hcd
          omega
        rw [if_neg hxd] at hcd
        have hrec := ih hf2 (by omega)
        simp only [removeByGfn, if_neg hx, countDma]
        rw [if_neg hxd]
        omega

/-- Removing by the gfn itself clears a count of one to zero. -/
theorem countGfn_removeByGfn_self (es : List GvtDma) (g : Nat)
    (h : countGfn es g = 1) : countGfn (removeByGfn es g) g = 0 := by
  induction es with
  | nil => rfl
  | cons x xs ih =>
    by_cases hx : x.gfn = g
    · simp only [removeByGfn, if_pos hx]
      simp only [countGfn, if_pos hx] at h
      omega
    · simp only [removeByGfn, if_neg hx, countGfn, if_neg hx] at h ⊢
      have := ih (by omega)
      omega

/-- Removing the unique g entry also clears the count of its unique dma
address. -/
theorem countDma_removeByGfn_self (es : List GvtDma) (g d r : Nat)
    (hf : findGfn es g = some ⟨g, d, r⟩)
    (hcd : countDma es d = 1) : countDma (removeByGfn es g) d = 0 := by
  induction es with
  | nil => simp [findGfn] at hf
  | cons x xs ih =>
    by_cases hx : x.gfn = g
    · have hx2 : x = ⟨g, d, r⟩ := by
        have hf3 := hf
        simp only [findGfn, if_pos hx] at hf3
        cases hf3
        rfl
      have hxd : x.dma_addr = d := by rw [hx2]
      simp only [removeByGfn, if_pos hx]
      simp only [countDma] at hcd
      rw [if_pos hxd] at hcd
      omega
    · have hf2 : findGfn xs g = some ⟨g, d, r⟩ := by
        simpa [findGfn, hx] using hf
      have hmem := findGfn_mem xs g _ hf2
      have hpos : 0 < countDma xs d := by
        simpa using countDma_pos_of_mem xs ⟨g, d, r⟩ hmem
      simp only [countDma] at hcd
      have hxd : ¬ x.dma_addr = d := by
        intro hh2
        rw [if_pos hh2] at hcd
        omega
      rw [if_neg hxd] at hcd
      have hrec := ih hf2 (by omega)
      simp only [removeByGfn, if_neg hx, countDma]
      rw [if_neg hxd]
      omega

/-- A gfn with zero count is not found by the gfn index. -/
theorem findGfn_eq_none_of_countGfn_zero (es : List GvtDma) (g : Nat)
    (h : countGfn es g = 0) : findGfn es g = none := by
  induction es with
  | nil => rfl
  | cons x xs ih =>
    simp only [countGfn] at h
    by_cases hx : x.gfn = g
    · rw [if_pos hx] at h
      omega
    · rw [if_neg hx] at h
      simp [findGfn, hx, ih (by omega)]

/-- A dma address with zero count is not found by the dma index. -/
theorem findDma_eq_none_of_countDma_zero (es : List GvtDma) (d : Nat)
    (h : countDma es d = 0) : findDma es d = none := by
  induction es with
  | nil => rfl
  | cons x xs ih =>
    simp only [countDma] at h
    by_cases hx : x.dma_addr = d
    · rw [if_pos hx] at h
      omega
    · rw [if_neg hx] at h
      simp [findDma, hx, ih (by omega)]

/-- The invalidation loop keeps a gfn and a dma address that are already
gone at zero and never logs an unmap for a gfn below its cursor. -/
theorem iommu_loop_preserves (n : Nat) :
    ∀ (st : CacheState) (p g d : Nat), g < p →
    countGfn st.entries g = 0 → countDma st.entries d = 0 →
    countGfn (iommu_unmap_loop st p n).entries g = 0
    ∧ countDma (iommu_unmap_loop st p n).entries d = 0
    ∧ (iommu_unmap_loop st p n).unmapLog.count g = st.unmapLog.count g := by
  induction n with
  | zero =>
    intro st p g d _ h1 h2
    exact ⟨h1, h2, rfl⟩
  | succ n ih =>
    intro st p g d hgp h1 h2
    simp only [iommu_unmap_loop]
    cases hfind : findGfn st.entries p with
    | none => exact ih st (p + 1) g d (by omega) h1 h2
    | some e =>
      have hsubl := removeByGfn_sublist st.entries p
      have hg1 : countGfn (removeByGfn st.entries p) g = 0 := by
        have := countGfn_le_of_sublist _ _ g hsubl
        omega
      have hd1 : countDma (removeByGfn st.entries p) d = 0 := by
        have := countDma_le_of_sublist _ _ d hsubl
        omega
      have hep : e.gfn = p := findGfn_gfn_eq st.entries p e hfind
      rcases ih { gvt_dma_unmap_page e.gfn st with entries := removeByGfn st.entries p }
          (p + 1) g d (by omega) hg1 hd1 with ⟨ha, hb, hc⟩
      refine ⟨ha, hb, ?_⟩
      rw [hc]
      show (st.unmapLog ++ [e.gfn]).count g = st.unmapLog.count g
      have hne : ¬ e.gfn = g := by
        rw [hep]
        omega
      simp [List.count_append, List.count_cons, hne]

/-- The invalidation loop removes the unique entry of a gfn in its range
from both index views and logs exactly one host unmap for it, whatever the
reference count of the entry is. -/
theorem iommu_loop_removes (n : Nat) :
    ∀ (st : CacheState) (p g d r : Nat), p ≤ g → g < p + n →
    findGfn st.entries g = some ⟨g, d, r⟩ →
    countGfn st.entries g = 1 → countDma st.entries d = 1 →
    countGfn (iommu_unmap_loop st p n).entries g = 0
    ∧ countDma (iommu_unmap_loop st p n).entries d = 0
    ∧ (iommu_unmap_loop st p n).unmapLog.count g = st.unmapLog.count g + 1 := by
  induction n with
  | zero =>
    intro st p g d r h1 h2 _ _ _
    omega
  | succ n ih =>
    intro st p g d r hpg hgn hf hcg hcd
    simp only [iommu_unmap_loop]
    by_cases hpeq : p = g
    · subst hpeq
      rw [hf]
      have hg0 : countGfn (removeByGfn st.entries p) p = 0 :=
        countGfn_removeByGfn_self _ _ hcg
      have hd0 : countDma (removeByGfn st.entries p) d = 0 :=
        countDma_removeByGfn_self _ _ _ _ hf hcd
      rcases iommu_loop_preserves n
          { gvt_dma_unmap_page (GvtDma.mk p d r).gfn st with
              entries := removeByGfn st.entries p }
          (p + 1) p d (by omega) hg0 hd0 with ⟨ha, hb, hc⟩
      refine ⟨ha, hb, ?_⟩
      rw [hc]
      show (st.unmapLog ++ [(GvtDma.mk p d r).gfn]).count p
        = st.unmapLog.count p + 1
      simp [List.count_append, List.count_cons]
    · cases hfind : findGfn st.entries p with
      | none => exact ih st (p + 1) g d r (by omega) (by omega) hf hcg hcd
      | some e =>
        have hep : e.gfn = p := findGfn_gfn_eq st.entries p e hfind
        have hf1 : findGfn (removeByGfn st.entries p) g = some ⟨g, d, r⟩ := by
          rw [findGfn_removeByGfn_ne st.entries p g hpeq]
          exact hf
        have hcg1 : countGfn (removeByGfn st.entries p) g = 1 := by
          rw [countGfn_removeByGfn_ne st.entries p g hpeq]
          exact hcg
        have hcd1 : countDma (removeByGfn st.entries p) d = 1 :=
          countDma_removeByGfn_ne st.entries p g d r hpeq hf hcd
        rcases ih { gvt_dma_unmap_page e.gfn st with
              entries := removeByGfn st.entries p }
            (p + 1) g d r (by omega) (by omega) hf1 hcg1 hcd1 with ⟨ha, hb, hc⟩
        refine ⟨ha, hb, ?_⟩
        rw [hc]
        show (st.unmapLog ++ [e.gfn]).count g + 1 = st.unmapLog.count g + 1
        have hne : ¬ e.gfn = g := by
          rw [hep]
          exact hpeq
        simp [List.count_append, List.count_cons, hne]

/-- C3: a dma unmap notification covering the gfn of a cache entry removes
the entry from both index views and logs exactly one host unmap plus unpin
for it, independently of the reference count of the entry. -/
theorem iommu_invalidate_refcount_independent (iova sz g d r : Nat)
    (st : CacheState)
    (hf : findGfn st.entries g = some ⟨g, d, r⟩)
    (hcg : countGfn st.entries g = 1)
    (hcd : countDma st.entries d = 1)
    (hlo : iova >>> 12 ≤ g) (hhi : g < iova >>> 12 + sz / 4096) :
    findGfn (intel_vgpu_iommu_notifier VFIO_IOMMU_NOTIFY_DMA_UNMAP
        iova sz st).entries g = none
    ∧ findDma (intel_vgpu_iommu_notifier VFIO_IOMMU_NOTIFY_DMA_UNMAP
        iova sz st).entries d = none
    ∧ (intel_vgpu_iommu_notifier VFIO_IOMMU_NOTIFY_DMA_UNMAP
        iova sz st).unmapLog.count g = st.unmapLog.count g + 1 := by
  have hnot : intel_vgpu_iommu_notifier VFIO_IOMMU_NOTIFY_DMA_UNMAP iova sz st
      = iommu_unmap_loop st (iova >>> 12) (sz / 4096) := by
    simp [intel_vgpu_iommu_notifier]
  rw [hnot]
  rcases iommu_loop_removes (sz / 4096) st (iova >>> 12) g d r hlo hhi hf
    hcg hcd with ⟨ha, hb, hc⟩
  exact ⟨findGfn_eq_none_of_countGfn_zero _ _ ha,
    findDma_eq_none_of_countDma_zero _ _ hb, hc⟩

/-- Witness for the invalidation theorem: an entry for gfn 1 with
reference count 5 inside an unmapped range of two pages starting at iova
0. -/
theorem iommu_invalidate_refcount_independent_witness :
    findGfn (intel_vgpu_iommu_notifier VFIO_IOMMU_NOTIFY_DMA_UNMAP
        0 8192 wCache).entries 1 = none
    ∧ findDma (intel_vgpu_iommu_notifier VFIO_IOMMU_NOTIFY_DMA_UNMAP
        0 8192 wCache).entries 500 = none
    ∧ (intel_vgpu_iommu_notifier VFIO_IOMMU_NOTIFY_DMA_UNMAP
        0 8192 wCache).unmapLog.count 1 = wCache.unmapLog.count 1 + 1 :=
  iommu_invalidate_refcount_independent 0 8192 1 500 5 wCache
    (by decide) (by decide) (by decide) (by decide) (by decide)

/-- When every handler call succeeds, the chunked loop performs exactly
the greedy decomposition, accumulates the full count and advances the
offset past the whole range. -/
theorem vgpu_rw_chunks_all_ok (rw : Nat → Nat → Int)
    (hok : ∀ p c, 0 < rw p c) :
    ∀ count pos done, vgpu_rw_chunks rw count pos done
      = (greedyChunks count pos, ((done + count : Nat) : Int), pos + count) := by
  intro count
  induction count using Nat.strong_induction_on with
  | _ count ih =>
    intro pos done
    by_cases h0 : count = 0
    · subst h0
      rw [vgpu_rw_chunks_zero, greedyChunks_zero]
      simp
    · have hc1 : 0 < chunkSize count pos := chunkSize_pos count pos
      have hcle : chunkSize count pos ≤ count := chunkSize_le count pos h0
      have hrec := ih (count - chunkSize count pos) (by omega)
        (pos + chunkSize count pos) (done + chunkSize count pos)
      rw [vgpu_rw_chunks_step rw count pos done _ _ _ h0 (hok _ _) hrec,
        greedyChunks_step count pos h0]
      have e1 : done + chunkSize count pos + (count - chunkSize count pos)
          = done + count := by omega
      have e2 : pos + chunkSize count pos + (count - chunkSize count pos)
          = pos + count := by omega
      rw [e1, e2]

/-- The greedy decomposition covers exactly the requested count. -/
theorem greedyChunks_sum (count : Nat) : ∀ pos,
    ((greedyChunks count pos).map (fun pc => pc.2)).sum = count := by
  induction count using Nat.strong_induction_on with
  | _ count ih =>
    intro pos
    by_cases h0 : count = 0
    · subst h0
      rw [greedyChunks_zero]
      rfl
    · rw [greedyChunks_step count pos h0]
      have hc1 : 0 < chunkSize count pos := chunkSize_pos count pos
      have hcle : chunkSize count pos ≤ count := chunkSize_le count pos h0
      have hrec := ih (count - chunkSize count pos) (by omega)
        (pos + chunkSize count pos)
      simp [hrec]
      omega

/-- Every chunk of the greedy decomposition is 4, 2 or 1 bytes and
aligned at its offset. -/
theorem greedyChunks_mem (count : Nat) : ∀ pos pc,
    pc ∈ greedyChunks count pos →
    (pc.2 = 4 ∨ pc.2 = 2 ∨ pc.2 = 1) ∧ pc.1 % pc.2 = 0 := by
  induction count using Nat.strong_induction_on with
  | _ count ih =>
    intro pos pc hm
    by_cases h0 : count = 0
    · subst h0
      rw [greedyChunks_zero] at hm
      cases hm
    · rw [greedyChunks_step count pos h0] at hm
      have hc1 : 0 < chunkSize count pos := chunkSize_pos count pos
      rcases List.mem_cons.mp hm with rfl | hm2
      · have hg := chunkSize_greedy count pos (by omega)
        exact ⟨hg.2.2.1, hg.2.1⟩
      · exact ih (count - chunkSize count pos) (by omega) _ _ hm2

/-- C5 counterexample: a request whose decoded index selects a registered
region (index 9, the first one past the fixed set) is handed to the
handler in one single call of the full 8 bytes, which is not a chunk of
4, 2 or 1 bytes, so not every request is decomposed greedily. -/
theorem intel_vgpu_read_chunking_counterexample :
    intel_vgpu_read (fun _ c => (c : Int)) 8 (9 * 2 ^ 40)
      = ([(9 * 2 ^ 40, 8)], (8 : Int), 9 * 2 ^ 40)
    ∧ ((8 : Nat) = 4 ∨ (8 : Nat) = 2 ∨ (8 : Nat) = 1 → False) := by
  constructor
  · have h9 : (9 * 2 ^ 40) >>> 40 = 9 := by decide
    simp [intel_vgpu_read, h9, VFIO_PCI_NUM_REGIONS]
  · decide

/-- C5 amended: for requests whose decoded index lies below the fixed
region count, intel_vgpu_read and intel_vgpu_write decompose the transfer
greedily into the largest aligned chunk of 4, 2 or 1 bytes that fits the
remaining count, pass each chunk to the handler, and return the full
requested count when every chunk succeeds; requests at registered region
indices are instead passed through whole in one call. -/
theorem intel_vgpu_read_chunking_amended (rw : Nat → Nat → Int)
    (count ppos : Nat)
    (hidx : ppos >>> 40 < VFIO_PCI_NUM_REGIONS)
    (hok : ∀ p c, 0 < rw p c) :
    intel_vgpu_read rw count ppos
      = (greedyChunks count ppos, (count : Int), ppos + count)
    ∧ intel_vgpu_write rw count ppos
      = (greedyChunks count ppos, (count : Int), ppos + count)
    ∧ ((greedyChunks count ppos).map (fun pc => pc.2)).sum = count
    ∧ (∀ pc ∈ greedyChunks count ppos,
        (pc.2 = 4 ∨ pc.2 = 2 ∨ pc.2 = 1) ∧ pc.1 % pc.2 = 0)
    ∧ (∀ cnt pos : Nat, 0 < cnt →
        chunkSize cnt pos ≤ cnt ∧ pos % chunkSize cnt pos = 0 ∧
        (chunkSize cnt pos = 4 ∨ chunkSize cnt pos = 2 ∨ chunkSize cnt pos = 1) ∧
        (∀ c, (c = 4 ∨ c = 2 ∨ c = 1) → c ≤ cnt → pos % c = 0 →
          c ≤ chunkSize cnt pos))
    ∧ (∀ cnt pp, VFIO_PCI_NUM_REGIONS ≤ pp >>> 40 →
        intel_vgpu_read rw cnt pp = ([(pp, cnt)], rw pp cnt, pp)
        ∧ intel_vgpu_write rw cnt pp = ([(pp, cnt)], rw pp cnt, pp)) := by
  have hloop := vgpu_rw_chunks_all_ok rw hok count ppos 0
  have hnle : ¬ VFIO_PCI_NUM_REGIONS ≤ ppos >>> 40 := by omega
  refine ⟨?_, ?_, greedyChunks_sum count ppos,
    fun pc hm => greedyChunks_mem count ppos pc hm,
    fun cnt pos hcnt => chunkSize_greedy cnt pos hcnt, ?_⟩
  · simp [intel_vgpu_read, hnle, hloop]
  · simp [intel_vgpu_write, hnle, hloop]
  · intro cnt pp hpp
    exact ⟨by simp [intel_vgpu_read, hpp], by simp [intel_vgpu_write, hpp]⟩

/-- Witness for the amended chunking theorem: a 4 byte access at offset 3
with an always succeeding handler. -/
theorem intel_vgpu_read_chunking_amended_witness :
    intel_vgpu_read (fun _ _ => 1) 4 3
      = (greedyChunks 4 3, (4 : Int), 3 + 4)
    ∧ intel_vgpu_write (fun _ _ => 1) 4 3
      = (greedyChunks 4 3, (4 : Int), 3 + 4)
    ∧ ((greedyChunks 4 3).map (fun pc => pc.2)).sum = 4
    ∧ (∀ pc ∈ greedyChunks 4 3,
        (pc.2 = 4 ∨ pc.2 = 2 ∨ pc.2 = 1) ∧ pc.1 % pc.2 = 0)
    ∧ (∀ cnt pos : Nat, 0 < cnt →
        chunkSize cnt pos ≤ cnt ∧ pos % chunkSize cnt pos = 0 ∧
        (chunkSize cnt pos = 4 ∨ chunkSize cnt pos = 2 ∨ chunkSize cnt pos = 1) ∧
        (∀ c, (c = 4 ∨ c = 2 ∨ c = 1) → c ≤ cnt → pos % c = 0 →
          c ≤ chunkSize cnt pos))
    ∧ (∀ cnt pp, VFIO_PCI_NUM_REGIONS ≤ pp >>> 40 →
        intel_vgpu_read (fun _ _ => 1) cnt pp
          = ([(pp, cnt)], (fun _ _ => (1 : Int)) pp cnt, pp)
        ∧ intel_vgpu_write (fun _ _ => 1) cnt pp
          = ([(pp, cnt)], (fun _ _ => (1 : Int)) pp cnt, pp)) :=
  intel_vgpu_read_chunking_amended (fun _ _ => 1) 4 3 (by decide)
    (fun _ _ => Int.one_pos)

/-- C6: when a chunk of the loop fails after earlier chunks succeeded, the
dispatcher stops at that chunk: the call trace is the successful prefix
followed by the one failing call, nothing already transferred is undone,
the returned value is the EFAULT error, and the final offset still sits
past exactly the completed chunks, exposing the partial transfer length to
the caller alongside the error. -/
theorem vgpu_rw_partial_failure (rw : Nat → Nat → Int) :
    (∀ count pos done tr res fp,
      vgpu_rw_chunks rw count pos done = (tr, res, fp) → res < 0 →
      ∃ pre lst, tr = pre ++ [lst]
        ∧ (∀ pc ∈ pre, 0 < rw pc.1 pc.2)
        ∧ rw lst.1 lst.2 ≤ 0
        ∧ res = -14
        ∧ fp = pos + (pre.map (fun pc => pc.2)).sum)
    ∧ (∀ count ppos, ppos >>> 40 < VFIO_PCI_NUM_REGIONS →
        intel_vgpu_read rw count ppos = vgpu_rw_chunks rw count ppos 0
        ∧ intel_vgpu_write rw count ppos = vgpu_rw_chunks rw count ppos 0) := by
  constructor
  · intro count
    induction count using Nat.strong_induction_on with
    | _ count ih =>
      intro pos done tr res fp heq hres
      by_cases h0 : count = 0
      · subst h0
        rw [vgpu_rw_chunks_zero] at heq
        simp only [Prod.mk.injEq] at heq
        obtain ⟨rfl, rfl, rfl⟩ := heq
        omega
      · by_cases hfail : rw pos (chunkSize count pos) ≤ 0
        · rw [vgpu_rw_chunks_fail rw count pos done h0 hfail] at heq
          simp only [Prod.mk.injEq] at heq
          obtain ⟨rfl, rfl, rfl⟩ := heq
          refine ⟨[], (pos, chunkSize count pos), rfl, ?_, hfail, rfl, by simp⟩
          intro pc hpc
          cases hpc
        · have hpos2 : 0 < rw pos (chunkSize count pos) := by omega
          rcases hrec : vgpu_rw_chunks rw (count - chunkSize count pos)
              (pos + chunkSize count pos) (done + chunkSize count pos) with
            ⟨tr2, res2, fp2⟩
          rw [vgpu_rw_chunks_step rw count pos done tr2 res2 fp2 h0 hpos2
            hrec] at heq
          simp only [Prod.mk.injEq] at heq
          obtain ⟨rfl, rfl, rfl⟩ := heq
          have hc1 : 0 < chunkSize count pos := chunkSize_pos count pos
          rcases ih (count - chunkSize count pos) (by omega)
              (pos + chunkSize count pos) (done + chunkSize count pos)
              tr2 res2 fp2 hrec hres with
            ⟨pre2, lst2, htr2, hpre2, hlst2, hres2, hfp2⟩
          refine ⟨(pos, chunkSize count pos) :: pre2, lst2, by simp [htr2],
            ?_, hlst2, hres2, ?_⟩
          · intro pc hpc
            rcases List.mem_cons.mp hpc with rfl | hm
            · exact hpos2
            · exact hpre2 pc hm
          · rw [hfp2]
            simp only [List.map_cons, List.sum_cons]
            omega
  · intro count ppos hidx
    have hnle : ¬ VFIO_PCI_NUM_REGIONS ≤ ppos >>> 40 := by omega
    exact ⟨by simp [intel_vgpu_read, hnle], by simp [intel_vgpu_write, hnle]⟩

/-- Witness for the partial failure theorem: an 8 byte aligned transfer
whose second 4 byte chunk fails, leaving a trace of one successful chunk,
one failing call, the EFAULT result and an offset advanced by exactly the
4 completed bytes. -/
theorem vgpu_rw_partial_failure_witness :
    ∃ pre lst, ([((0 : Nat), (4 : Nat)), (4, 4)] : List (Nat × Nat))
        = pre ++ [lst]
      ∧ (∀ pc ∈ pre, 0 < wFailRw pc.1 pc.2)
      ∧ wFailRw lst.1 lst.2 ≤ 0
      ∧ (-14 : Int) = -14
      ∧ (4 : Nat) = 0 + (pre.map (fun pc => pc.2)).sum := by
  have h1 : vgpu_rw_chunks wFailRw 4 4 4 = ([(4, 4)], -14, 4) :=
    vgpu_rw_chunks_fail wFailRw 4 4 4 (by decide) (by decide)
  have h0 : vgpu_rw_chunks wFailRw 8 0 0 = ([(0, 4), (4, 4)], -14, 4) :=
    vgpu_rw_chunks_step wFailRw 8 0 0 [(4, 4)] (-14) 4 (by decide)
      (by decide) h1
  exact (vgpu_rw_partial_failure wFailRw).1 8 0 0 [(0, 4), (4, 4)] (-14) 4 h0
    (by decide)

/-- Witness for the opregion theorem: a 4 byte read at offset 6 of an
8 byte region. -/
theorem opregion_truncated_read_witness :
    (intel_vgpu_reg_rw_opregion 8 6 4 false).1 = 0
    ∧ (intel_vgpu_reg_rw_opregion 8 6 4 false).2 = 8 - 6
    ∧ vgpu_rw_return (intel_vgpu_reg_rw_opregion 8 6 4 false).1 4 = (4 : Int)
    ∧ (∀ c, (intel_vgpu_reg_rw_opregion 8 6 c true).1 = -22)
    ∧ (∀ p c w, 8 ≤ p → (intel_vgpu_reg_rw_opregion 8 p c w).1 = -22
        ∧ vgpu_rw_return (intel_vgpu_reg_rw_opregion 8 p c w).1 c = -22) :=
  opregion_truncated_read 8 6 4 (by decide) (by decide)

end Kvmgt
